import Mathlib

/-!
Verification of the `units` Go library (dimensional analysis and unit
conversion).

The development shallowly embeds the complete implementation of the library
(the `units` package: the table construction in `init.go`, the grammar parser,
and the conversion engine `Parse` / `Reciprocal` / `New`) as executable Lean
definitions and proves theorems about them.

Modelling conventions:

* Strings are handled at the rune (character) level: the Go parser walks a
  `[]byte` with UTF-8 decoding, and every position it produces is the byte
  offset of a rune boundary, so positions are modelled as indices into the
  `List Char` of runes.  Key length used for table ordering (`len` in Go is a
  byte count) is modelled by an explicit UTF-8 byte-size function.
* `float64` quantities are modelled as exact rationals (`Q` below, a small
  executable fraction type).  Arithmetic on quantities is therefore exact:
  intermediate rounding, gradual underflow and infinities of IEEE-754 binary64
  do not occur in the model.  Claims whose truth depends on floating-point
  rounding behaviour are out of scope of this embedding.  `math.Pow10` is
  modelled as the exact fraction `10^e`, and `math.IsInf` as constantly false
  (an exact rational is never infinite).
* The dimension-vector component type `uComponent` is Go `int8`; its
  arithmetic wraps, which is modelled by `wrap8` applied to `Int` arithmetic.
  The `Scale` field has Go type `int` (64-bit); scale magnitudes reachable
  through the API are tiny, and it is modelled as an unbounded `Int`.
* Go functions returning `(value, pos, error)` triples are modelled with the
  same shape; where Go returns a typed `nil` on error together with a
  position, the dedicated result type `PRes` (value+position or
  position+error) is used.
* The general recursion of `parseUnit` is made structural with a fuel
  parameter; the top-level entry point supplies `length + 1` fuel, which is
  sufficient because every recursive call strictly consumes at least one rune
  first.  Running out of fuel yields the artificial error `GoErr.fuelExhausted`,
  which is unreachable from the public entry points.
* `Measurement` is a Go interface; `New` and `Reciprocal` accept either the
  internal `*measure` (used as-is, sharing the pointer) or an external
  implementation (re-parsed).  This is modelled by `MInput`.  `Reciprocal`
  assigns to the fields of the `*measure` it got from `parse`, which for an
  internal input is the caller's own object; this in-place mutation is made
  observable by returning the final state of the argument's referent as an
  extra component.
-/

namespace Units

/-! Section: Exact rational quantities (model of Go `float64`) -/

/-- Exact fraction: numerator and (nonnegative) denominator.  All values
produced by the operations below are normalized (coprime, positive
denominator), so structural equality coincides with value equality on them. -/
structure Q where
  num : Int
  den : Nat
deriving DecidableEq, Repr

/-- Normalize a fraction by dividing out the gcd.  `Q.norm n 0` (junk input,
never produced from actual quantities) maps to `⟨0, 0⟩` or `⟨±1, 0⟩`-like
values that are never equal to a normalized finite value. -/
def Q.norm (n : Int) (d : Nat) : Q :=
  let g := n.gcd d
  if g = 0 then ⟨0, 0⟩ else ⟨n / g, d / g⟩

/-- The zero quantity (`0.0`). -/
def Q.zero : Q := ⟨0, 1⟩

/-- The quantity `1.0`. -/
def Q.one : Q := ⟨1, 1⟩

/-- Embed an integer quantity. -/
def Q.ofInt (n : Int) : Q := ⟨n, 1⟩

/-- Exact product (model of `float64` multiplication). -/
def Q.mul (a b : Q) : Q := Q.norm (a.num * b.num) (a.den * b.den)

/-- Exact quotient (model of `float64` division; only reached with a nonzero
divisor in the embedded code). -/
def Q.div (a b : Q) : Q :=
  if 0 ≤ b.num then Q.norm (a.num * (b.den : Int)) (a.den * b.num.toNat)
  else Q.norm (-(a.num * (b.den : Int))) (a.den * (-b.num).toNat)

/-- Model of the Go comparison `value == 0.0`: a fraction represents the
value zero exactly when its numerator is zero. -/
def Q.isZero (a : Q) : Bool := a.num == 0

/-- Model of `math.IsInf(value, 0)`: exact rational arithmetic never
overflows to an infinity, so this is constantly false. -/
def Q.isInf (_ : Q) : Bool := false

/-- Model of `math.Pow10(e)`: the exact power of ten as a fraction. -/
def pow10 (e : Int) : Q :=
  if 0 ≤ e then ⟨(10 : Int) ^ e.toNat, 1⟩ else ⟨1, 10 ^ (-e).toNat⟩

/-! Section: Errors

The Go code reports errors as `error` values built from the package-level
sentinel errors and the wrapper `makeParseError` / `makeRuneNotFoundError`.
Only the identity of the error matters to the claims, so errors are an
inductive type; `parseFailed` records the position at which `makeParseError`
wraps an inner error. -/

inductive GoErr where
  | symbolNotFound
  | prefixNotFound
  | unparsedText
  | runeNotFound (r : Char)
  | intParseError
  | divideByZero
  | wrongDimension
  | underflow
  | overflow
  | parseFailed (pos : Nat) (inner : GoErr)
  | fuelExhausted
deriving DecidableEq, Repr

/-! Section: Dimension vectors (`uPoint`, Go `[numDim]int8`)

Base dimension order (indices of the Go array): electric current `I`,
luminous intensity `J`, length `L`, mass `M`, amount of substance `N`,
time `T`, absolute temperature `Θ`, Celsius temperature `ΘC`. -/

/-- Wrapping of Go `int8` arithmetic into `[-128, 127]`. -/
def wrap8 (x : Int) : Int := (x + 128) % 256 - 128

/-- Point in dimensional unit space: one `int8` exponent per base dimension.
Fields are in the Go array's index order. -/
structure uPoint where
  current : Int
  intensity : Int
  length : Int
  mass : Int
  amount : Int
  time : Int
  temperature : Int
  temperatureC : Int
deriving DecidableEq, Repr

/-- The zero dimension vector. -/
def pZero : uPoint := ⟨0, 0, 0, 0, 0, 0, 0, 0⟩

/-- Componentwise `int8` addition (the `r[idx] += v` loops). -/
def pAdd (a b : uPoint) : uPoint :=
  ⟨wrap8 (a.current + b.current), wrap8 (a.intensity + b.intensity),
   wrap8 (a.length + b.length), wrap8 (a.mass + b.mass),
   wrap8 (a.amount + b.amount), wrap8 (a.time + b.time),
   wrap8 (a.temperature + b.temperature), wrap8 (a.temperatureC + b.temperatureC)⟩

/-- Componentwise `int8` negation (the `r[idx] = -v` loop). -/
def pNeg (a : uPoint) : uPoint :=
  ⟨wrap8 (-a.current), wrap8 (-a.intensity), wrap8 (-a.length), wrap8 (-a.mass),
   wrap8 (-a.amount), wrap8 (-a.time), wrap8 (-a.temperature), wrap8 (-a.temperatureC)⟩

/-- Componentwise `int8` scalar multiplication (the `r[idx] = e * v` loop). -/
def pSMul (e : Int) (a : uPoint) : uPoint :=
  ⟨wrap8 (e * a.current), wrap8 (e * a.intensity), wrap8 (e * a.length),
   wrap8 (e * a.mass), wrap8 (e * a.amount), wrap8 (e * a.time),
   wrap8 (e * a.temperature), wrap8 (e * a.temperatureC)⟩

/-! Section: Parsed units (`pUnit`) and their algebra -/

/-- Parsed unit: dimension vector, unnormalized dimensionless factors, and
base-10 scale exponent (Go `int`, modelled as unbounded `Int`). -/
structure pUnit where
  Dim : uPoint
  DimLess : List uPoint
  Scale : Int
deriving DecidableEq, Repr

/-- Go `(*pUnit).product`: fold the dimensionless factors and the dimension
vector into a single vector, starting from zero (the Go loop ranges over
`append(a.DimLess, a.Dim)`). -/
def pUnit.product (a : pUnit) : uPoint :=
  (a.DimLess ++ [a.Dim]).foldl pAdd pZero

/-- Go `(*pUnit).Multiply`. -/
def pUnit.Multiply (a b : pUnit) : pUnit :=
  { Dim := pAdd (a.product) (b.product), DimLess := [], Scale := a.Scale + b.Scale }

/-- Go `(*pUnit).Reciprocal`. -/
def pUnit.Reciprocal (a : pUnit) : pUnit :=
  { Dim := pNeg (a.product), DimLess := [], Scale := -a.Scale }

/-- Go `(*pUnit).Exp`. -/
def pUnit.Exp (a : pUnit) (e : Int) : pUnit :=
  { Dim := pSMul e (a.product), DimLess := [], Scale := e * a.Scale }

/-- Go `theZero`: the zero parsed unit (`&pUnit{}`). -/
def theZero : pUnit := ⟨pZero, [], 0⟩

/-! Section: Measurements -/

/-- Internal measurement (`measure`): quantity value, given unit text, and
parsed unit. -/
structure measure where
  Value : Q
  Unit : String
  unit : pUnit
deriving DecidableEq, Repr

/-- Go `zeroValue`: the measurement returned alongside every error
(`&measure{unit: &pUnit{}}`; the `Value` and `Unit` fields keep their Go
zero values `0.0` and `""`). -/
def zeroValue : measure := ⟨Q.zero, "", ⟨pZero, [], 0⟩⟩

/-! Section: Symbol and prefix tables (`init.go`)

`longLess` orders keys by descending byte length, breaking ties by ascending
byte-lexicographic order.  Go's `len` counts bytes and Go's `<` on strings is
byte-lexicographic; UTF-8 encoding preserves codepoint order, so the
byte-lexicographic order equals the codepoint-lexicographic order computed
here, while byte length is computed by an explicit UTF-8 size function. -/

/-- Number of UTF-8 bytes of one rune. -/
def charBytes (c : Char) : Nat :=
  if c.toNat < 0x80 then 1
  else if c.toNat < 0x800 then 2
  else if c.toNat < 0x10000 then 3
  else 4

/-- Number of UTF-8 bytes of a string (Go `len`). -/
def byteLen (s : String) : Nat :=
  s.toList.foldl (fun n c => n + charBytes c) 0

/-- Byte-lexicographic strict order on strings (Go `a < b`), computed on
runes (UTF-8 preserves the order). -/
def bytesLess : List Char → List Char → Bool
  | [], [] => false
  | [], _ :: _ => true
  | _ :: _, [] => false
  | a :: as, b :: bs =>
    if a.toNat < b.toNat then true
    else if b.toNat < a.toNat then false
    else bytesLess as bs

/-- Go `longLess`: sort longer keys first; among equal lengths, ascending. -/
def longLess (a b : String) : Bool :=
  if byteLen a = byteLen b then bytesLess a.toList b.toList
  else decide (byteLen a > byteLen b)

/-- Insert into a list sorted by the strict order `less` (helper for the
model of `sort.Sort`). -/
def insertByLess (less : α → α → Bool) (x : α) : List α → List α
  | [] => [x]
  | y :: ys => if less x y then x :: y :: ys else y :: insertByLess less x ys

/-- Comparison sort by the strict order `less`.  `longLess` is a strict
total order on the (duplicate-free) table keys, so the sorted result is the
unique one; the choice of algorithm is immaterial. -/
def sortByLess (less : α → α → Bool) (l : List α) : List α :=
  l.foldr (insertByLess less) []

/-- Prefix-table entry (`keyedScale`). -/
structure keyedScale where
  Key : String
  Scale : Int
deriving DecidableEq, Repr

/-- Symbol-table entry (`keyedUnit`). -/
structure keyedUnit where
  Key : String
  Unit : pUnit
deriving DecidableEq, Repr

/-- The prefix table as appended by `makeScales`, in source order. -/
def rawScales : List keyedScale :=
  [⟨"da", 1⟩, ⟨"h", 2⟩, ⟨"k", 3⟩, ⟨"M", 6⟩, ⟨"G", 9⟩,
   ⟨"T", 12⟩, ⟨"P", 15⟩, ⟨"E", 18⟩, ⟨"Z", 21⟩, ⟨"Y", 24⟩,
   ⟨"d", -1⟩, ⟨"c", -2⟩, ⟨"m", -3⟩, ⟨"μ", -6⟩, ⟨"u", -6⟩,
   ⟨"n", -9⟩, ⟨"p", -12⟩, ⟨"f", -15⟩, ⟨"a", -18⟩, ⟨"z", -21⟩, ⟨"y", -24⟩]

/-- Go `defaultScales`: the prefix table after `sort.Sort` by `longLess`. -/
def defaultScales : List keyedScale :=
  sortByLess (fun a b => longLess a.Key b.Key) rawScales

/-- The symbol table as appended by `makeUnits`, in source order.  The
`uPoint` components are, in order: current `I`, intensity `J`, length `L`,
mass `M`, amount `N`, time `T`, temperature `Θ`, Celsius `ΘC`. -/
def rawUnits : List keyedUnit :=
  [⟨"m", ⟨⟨0, 0, 1, 0, 0, 0, 0, 0⟩, [], 0⟩⟩,
   ⟨"g", ⟨⟨0, 0, 0, 1, 0, 0, 0, 0⟩, [], 0⟩⟩,
   ⟨"s", ⟨⟨0, 0, 0, 0, 0, 1, 0, 0⟩, [], 0⟩⟩,
   ⟨"A", ⟨⟨1, 0, 0, 0, 0, 0, 0, 0⟩, [], 0⟩⟩,
   ⟨"K", ⟨⟨0, 0, 0, 0, 0, 0, 1, 0⟩, [], 0⟩⟩,
   ⟨"mol", ⟨⟨0, 0, 0, 0, 1, 0, 0, 0⟩, [], 0⟩⟩,
   ⟨"cd", ⟨⟨0, 1, 0, 0, 0, 0, 0, 0⟩, [], 0⟩⟩,
   ⟨"rad", ⟨pZero, [⟨0, 0, 1, 0, 0, 0, 0, 0⟩, ⟨0, 0, -1, 0, 0, 0, 0, 0⟩], 0⟩⟩,
   ⟨"sr", ⟨pZero, [⟨0, 0, 2, 0, 0, 0, 0, 0⟩, ⟨0, 0, -2, 0, 0, 0, 0, 0⟩], 0⟩⟩,
   ⟨"Hz", ⟨⟨0, 0, 0, 0, 0, -1, 0, 0⟩, [], 0⟩⟩,
   ⟨"N", ⟨⟨0, 0, 1, 1, 0, -2, 0, 0⟩, [], 3⟩⟩,
   ⟨"Pa", ⟨⟨0, 0, -1, 1, 0, -2, 0, 0⟩, [], 3⟩⟩,
   ⟨"J", ⟨⟨0, 0, 2, 1, 0, -2, 0, 0⟩, [], 3⟩⟩,
   ⟨"W", ⟨⟨0, 0, 2, 1, 0, -3, 0, 0⟩, [], 3⟩⟩,
   ⟨"C", ⟨⟨1, 0, 0, 0, 0, 1, 0, 0⟩, [], 0⟩⟩,
   ⟨"V", ⟨⟨-1, 0, 2, 1, 0, -3, 0, 0⟩, [], 3⟩⟩,
   ⟨"F", ⟨⟨2, 0, -2, -1, 0, 4, 0, 0⟩, [], -3⟩⟩,
   ⟨"Ω", ⟨⟨-2, 0, 2, 1, 0, -3, 0, 0⟩, [], 3⟩⟩,
   ⟨"S", ⟨⟨2, 0, -2, -1, 0, 3, 0, 0⟩, [], -3⟩⟩,
   ⟨"Wb", ⟨⟨-1, 0, 2, 1, 0, -2, 0, 0⟩, [], 3⟩⟩,
   ⟨"T", ⟨⟨-1, 0, 0, 1, 0, -2, 0, 0⟩, [], 3⟩⟩,
   ⟨"H", ⟨⟨-2, 0, 2, 1, 0, -2, 0, 0⟩, [], 3⟩⟩,
   ⟨"°C", ⟨⟨0, 0, 0, 0, 0, 0, 0, 1⟩, [], 0⟩⟩,
   ⟨"℃", ⟨⟨0, 0, 0, 0, 0, 0, 0, 1⟩, [], 0⟩⟩,
   ⟨"lm", ⟨⟨0, 1, 0, 0, 0, 0, 0, 0⟩, [⟨0, 0, 2, 0, 0, 0, 0, 0⟩, ⟨0, 0, -2, 0, 0, 0, 0, 0⟩], 0⟩⟩,
   ⟨"lx", ⟨⟨0, 1, -2, 0, 0, 0, 0, 0⟩, [], 0⟩⟩,
   ⟨"Bq", ⟨⟨0, 0, 0, 0, 0, -1, 0, 0⟩, [], 0⟩⟩,
   ⟨"Gy", ⟨⟨0, 0, 2, 0, 0, -2, 0, 0⟩, [], 0⟩⟩,
   ⟨"Sv", ⟨⟨0, 0, 2, 0, 0, -2, 0, 0⟩, [], 0⟩⟩,
   ⟨"kat", ⟨⟨0, 0, 0, 0, 1, -1, 0, 0⟩, [], 0⟩⟩,
   ⟨"l", ⟨⟨0, 0, 3, 0, 0, 0, 0, 0⟩, [], -3⟩⟩,
   ⟨"L", ⟨⟨0, 0, 3, 0, 0, 0, 0, 0⟩, [], -3⟩⟩,
   ⟨"Da", ⟨⟨0, 0, 0, 1, -1, 0, 0, 0⟩, [], 0⟩⟩]

/-- Go `defaultUnits`: the symbol table after `sort.Sort` by `longLess`. -/
def defaultUnits : List keyedUnit :=
  sortByLess (fun a b => longLess a.Key b.Key) rawUnits

/-! Section: Grammar parser -/

/-- Model of `unicode.IsSpace`: Go's White_Space property (the full rune set). -/
def isSpace (c : Char) : Bool :=
  let n := c.toNat
  (0x9 ≤ n && n ≤ 0xD) || n == 0x20 || n == 0x85 || n == 0xA0 ||
  n == 0x1680 || (0x2000 ≤ n && n ≤ 0x200A) || n == 0x2028 || n == 0x2029 ||
  n == 0x202F || n == 0x205F || n == 0x3000

/-- Model of `unicode.IsDigit`, restricted to the ASCII digits.  (Go's predicate also
accepts other Unicode decimal digits, but `strconv.ParseInt` then rejects
them, so on every input that parses the two agree; only the reported error
position can differ on exotic digits.) -/
def isDigit (c : Char) : Bool := '0' ≤ c && c ≤ '9'

/-- Go `scanToNonSpace`: position of the first non-space rune (or `len(data)`),
and whether whitespace was found. -/
def scanToNonSpace (data : List Char) (pos : Nat) (hadSpace : Bool) : Nat × Bool :=
  if data.length ≤ pos then (pos, hadSpace)
  else
    match (data.drop pos).findIdx? (fun c => !(isSpace c)) with
    | none => (data.length, hadSpace || true)
    | some idx => (pos + idx, hadSpace || idx != 0)

/-- Go `scanToNonDigit`: position of the first non-digit rune, allowing one
leading `-` at the start position. -/
def scanToNonDigit (data : List Char) (pos : Nat) : Nat :=
  let start :=
    match data.drop pos with
    | '-' :: _ => pos + 1
    | _ => pos
  start + ((data.drop start).takeWhile isDigit).length

/-- Go `parseRune`: expect the rune `r` at `pos`; on success advance past it,
on failure keep the position and report rune-not-found. -/
def parseRune (data : List Char) (pos : Nat) (r : Char) : Nat × Option GoErr :=
  match data.get? pos with
  | none => (pos, some (.runeNotFound r))
  | some c => if c = r then (pos + 1, none) else (pos, some (.runeNotFound r))

/-- Model of `strconv.ParseInt(s, 10, 8)`: optional leading `-`, then one or more
ASCII decimal digits, value restricted to `int8` range; `none` models a
non-nil error (syntax or range). -/
def parseIntDec8 (s : List Char) : Option Int :=
  let (sign, ds) :=
    match s with
    | '-' :: rest => ((-1 : Int), rest)
    | _ => ((1 : Int), s)
  if ds.isEmpty then none
  else if ds.all isDigit then
    let v : Int := sign * (ds.foldl (fun n c => n * 10 + (c.toNat - '0'.toNat)) 0 : Nat)
    if -128 ≤ v ∧ v ≤ 127 then some v else none
  else none

/-- Go `parseExponent`: a `^` followed by an `int8` integer.  Note the Go
multiple assignment updates the position even on error, so a failed integer
parse leaves the cursor after the consumed `^`. -/
def parseExponent (data : List Char) (pos : Nat) : Int × Nat × Option GoErr :=
  match parseRune data pos '^' with
  | (pos1, some e) => (1, pos1, some e)
  | (pos1, none) =>
    let e := scanToNonDigit data pos1
    match parseIntDec8 ((data.drop pos1).take (e - pos1)) with
    | none => (1, pos1, some .intParseError)
    | some i => (i, e, none)

/-- Go `parsePrefix` (named `parsePre` here): scan the sorted prefix table for
the first key that is a prefix of the remaining input. -/
def parsePre (data : List Char) (pos : Nat) : Int × Nat × Option GoErr :=
  if data.length ≤ pos then (0, pos, some .prefixNotFound)
  else
    match defaultScales.find? (fun ks => ks.Key.toList.isPrefixOf (data.drop pos)) with
    | some ks => (ks.Scale, pos + ks.Key.toList.length, none)
    | none => (0, pos, some .prefixNotFound)

/-- Result of a Go `(*pUnit, int, error)` return: either a unit with the new
position, or a position with a non-nil error (the unit being nil). -/
inductive PRes where
  | ok (u : pUnit) (pos : Nat)
  | err (pos : Nat) (e : GoErr)
deriving DecidableEq, Repr

/-- Go `parseSymbol` (named `parseSym` here): scan the sorted symbol table for
the first key that is a prefix of the remaining input.  (At end of input the
Go code reports `prefixNotFound`; this quirk is preserved.) -/
def parseSym (data : List Char) (pos : Nat) : PRes :=
  if data.length ≤ pos then .err pos .prefixNotFound
  else
    match defaultUnits.find? (fun ku => ku.Key.toList.isPrefixOf (data.drop pos)) with
    | some ku => .ok ku.Unit (pos + ku.Key.toList.length)
    | none => .err pos .symbolNotFound

/-- Go `parseTerm`: the rule `Prefix? Symbol`, retrying as a bare `Symbol` from the
start position when the prefixed parse fails.  The symbol's own `Scale` and
`DimLess` fields are dropped: only its `Dim` and the prefix scale survive. -/
def parseTerm (data : List Char) (startPos : Nat) : PRes :=
  match parsePre data startPos with
  | (scale, pos, _) =>
    match parseSym data pos with
    | .ok u pos2 => .ok ⟨u.Dim, [], scale⟩ pos2
    | .err _ _ =>
      match parseSym data startPos with
      | .ok u pos2 => .ok ⟨u.Dim, [], 0⟩ pos2
      | .err pos2 e => .err pos2 e

/-- Go `parseUnit`, made structural by a fuel parameter (each recursive call in
the Go code strictly consumes input first, so `length + 1` fuel always
suffices).  The body mirrors the Go control flow: optional parenthesized
sub-unit or term, optional exponent, then exactly one of `/`-division,
`·`-multiplication, or (after whitespace) implicit multiplication whose
failure is swallowed (but whose final position is kept). -/
def parseUnit : Nat → List Char → Nat → PRes
  | 0, _, pos => .err pos .fuelExhausted
  | fuel + 1, data, pos0 =>
    match
      ((match parseRune data (scanToNonSpace data pos0 false).1 '(' with
        | (posA, none) =>
          (match parseUnit fuel data posA with
           | .ok u p =>
             (match parseRune data p ')' with
              | (p2, none) => .ok u p2
              | (p2, some e) => .err p2 e)
           | .err p e => .err p e)
        | (_, some _) => parseTerm data (scanToNonSpace data pos0 false).1) : PRes) with
    | .err p e => .err p e
    | .ok u0 p0 =>
      match scanToNonSpace data p0 false with
      | (p1, had1) =>
        match
          ((match parseExponent data p1 with
            | (e, p2, none) => (pUnit.Exp u0 e, (scanToNonSpace data p2 false).1,
                                (scanToNonSpace data p2 false).2)
            | (_, p2, some _) => (u0, p2, had1)) : pUnit × Nat × Bool) with
        | (u1, p3, had3) =>
          match parseRune data p3 '/' with
          | (p4, none) =>
            (match parseUnit fuel data p4 with
             | .ok v p5 => .ok (u1.Multiply v.Reciprocal) p5
             | .err p5 e => .err p5 e)
          | (_, some _) =>
            match parseRune data p3 '·' with
            | (p6, none) =>
              (match parseUnit fuel data p6 with
               | .ok v p7 => .ok (u1.Multiply v) p7
               | .err p7 e => .err p7 e)
            | (_, some _) =>
              if had3 then
                match parseUnit fuel data p3 with
                | .ok v p8 => .ok (u1.Multiply v) p8
                | .err p8 _ => .ok u1 p8
              else .ok u1 p3

/-- Result of a Go `(Measurement, error)` return where the measurement is
nil exactly when the error is non-nil (the shape of `Parse`'s returns). -/
inductive MRes where
  | ok (m : measure)
  | err (e : GoErr)
deriving DecidableEq, Repr

/-- Go `Parse`: the public entry point.  Empty unit text returns
`&measure{unit: theZero}` — note the quantity argument is NOT stored (the
`Value` field keeps its zero value); nonempty text is parsed and must be
fully consumed up to trailing whitespace.  On error Go returns a nil
measurement together with the error. -/
def Parse (quantity : Q) (unitString : String) : MRes :=
  if unitString.toList.length = 0 then .ok ⟨Q.zero, "", theZero⟩
  else
    match parseUnit (unitString.toList.length + 1) unitString.toList 0 with
    | .err p e => .err (.parseFailed p e)
    | .ok u p =>
      if (scanToNonSpace unitString.toList p false).1 ≠ unitString.toList.length then
        .err (.parseFailed (scanToNonSpace unitString.toList p false).1 .unparsedText)
      else .ok ⟨quantity, unitString, u⟩

/-! Section: Conversion engine (`Reciprocal`, `New`) -/

/-- An argument passed in through the `Measurement` interface: either the
library's own `*measure` (the pointer is used as-is by `parse`) or an
external implementation, of which only `Quantity()` and `MeasurementUnit()`
are observable. -/
inductive MInput where
  | internal (m : measure)
  | external (q : Q) (u : String)
deriving DecidableEq, Repr

/-- The `parse` helper: an internal `*measure` is returned unchanged (the
same pointer), anything else is re-parsed from its two accessors. -/
def parse : MInput → MRes
  | .internal m => .ok m
  | .external q u => Parse q u

/-- Go `Reciprocal`.  The first component is the Go return pair (measurement,
error); the second component is the final state of the argument: the code
assigns `m.Value`, `m.unit`, `m.Unit` on the `*measure` obtained from
`parse`, which for an internal argument is the caller's own object, so a
successful call on an internal measurement rewrites it in place (the
returned measurement IS the argument).  External arguments are re-parsed
into a fresh object and are never written through. -/
def Reciprocal (mm : MInput) : (measure × Option GoErr) × MInput :=
  match parse mm with
  | .err e => ((zeroValue, some e), mm)
  | .ok m =>
    if m.Value.isZero then ((zeroValue, some .divideByZero), mm)
    else
      ((⟨Q.div Q.one m.Value,
         if m.Unit.length ≠ 0 then "(" ++ m.Unit ++ ")^-1" else m.Unit,
         m.unit.Reciprocal⟩, none),
       match mm with
       | .internal _ =>
         .internal ⟨Q.div Q.one m.Value,
           if m.Unit.length ≠ 0 then "(" ++ m.Unit ++ ")^-1" else m.Unit,
           m.unit.Reciprocal⟩
       | .external q u => .external q u)

/-- The accumulation loop of `New` over the variadic arguments: quantities
multiply left to right, parsed units combine by `Multiply`; a parse failure
aborts with that error. -/
def newLoop : pUnit → Q → List MInput → Except GoErr (pUnit × Q)
  | unit, value, [] => .ok (unit, value)
  | unit, value, mm :: rest =>
    match parse mm with
    | .err e => .error e
    | .ok m => newLoop (unit.Multiply m.unit) (value.mul m.Value) rest

/-- Go `New`: resolve all inputs, accumulate value and unit, parse the target
with quantity `0`, check dimensional compatibility of the products, rescale
by `10^(accumulated scale - target scale)`, and flag underflow (result is
zero) or overflow (result is infinite).  Every error path returns
`zeroValue` (never nil); the success path stores the ACCUMULATED parsed
unit, not the target's. -/
def New (unitString : String) (m0 : MInput) (ms : List MInput) : measure × Option GoErr :=
  match parse m0 with
  | .err e => (zeroValue, some e)
  | .ok m =>
    match newLoop m.unit m.Value ms with
    | .error e => (zeroValue, some e)
    | .ok (unit, value) =>
      match Parse Q.zero unitString with
      | .err e => (zeroValue, some e)
      | .ok target =>
        if target.unit.product ≠ unit.product then (zeroValue, some .wrongDimension)
        else if (value.mul (pow10 (unit.Scale - target.unit.Scale))).isZero then
          (zeroValue, some .underflow)
        else if (value.mul (pow10 (unit.Scale - target.unit.Scale))).isInf then
          (zeroValue, some .overflow)
        else (⟨value.mul (pow10 (unit.Scale - target.unit.Scale)), unitString, unit⟩, none)

/-! Section: Specification-side definitions used to state the claims -/

/-- Componentwise integer sum of dimension vectors (no `int8` wrap): the
vector the specification calls `Product(a) + Product(b)`. -/
def pointAddZ (a b : uPoint) : uPoint :=
  ⟨a.current + b.current, a.intensity + b.intensity, a.length + b.length,
   a.mass + b.mass, a.amount + b.amount, a.time + b.time,
   a.temperature + b.temperature, a.temperatureC + b.temperatureC⟩

/-- Componentwise integer negation of a dimension vector. -/
def pointNegZ (a : uPoint) : uPoint :=
  ⟨-a.current, -a.intensity, -a.length, -a.mass,
   -a.amount, -a.time, -a.temperature, -a.temperatureC⟩

/-- Componentwise integer scalar multiple of a dimension vector. -/
def pointSMulZ (e : Int) (a : uPoint) : uPoint :=
  ⟨e * a.current, e * a.intensity, e * a.length, e * a.mass,
   e * a.amount, e * a.time, e * a.temperature, e * a.temperatureC⟩

/-- All components lie in the `int8` range (no wrap occurs there). -/
def inRange8 (p : uPoint) : Prop :=
  (-128 ≤ p.current ∧ p.current ≤ 127) ∧
  (-128 ≤ p.intensity ∧ p.intensity ≤ 127) ∧
  (-128 ≤ p.length ∧ p.length ≤ 127) ∧
  (-128 ≤ p.mass ∧ p.mass ≤ 127) ∧
  (-128 ≤ p.amount ∧ p.amount ≤ 127) ∧
  (-128 ≤ p.time ∧ p.time ≤ 127) ∧
  (-128 ≤ p.temperature ∧ p.temperature ≤ 127) ∧
  (-128 ≤ p.temperatureC ∧ p.temperatureC ≤ 127)

instance (p : uPoint) : Decidable (inRange8 p) := by
  unfold inRange8; infer_instance

/-- The parsed unit accumulated by `New`'s loop over resolved inputs. -/
def accUnit (m0 : measure) (ms : List measure) : pUnit :=
  ms.foldl (fun u m => u.Multiply m.unit) m0.unit

/-- The numeric product accumulated by `New`'s loop over resolved inputs. -/
def accValue (m0 : measure) (ms : List measure) : Q :=
  ms.foldl (fun v m => v.mul m.Value) m0.Value

/-- Dimension vector of a pure length (meter). -/
def uLen : uPoint := ⟨0, 0, 1, 0, 0, 0, 0, 0⟩

/-- Dimension vector of a pure mass (gram). -/
def uMass : uPoint := ⟨0, 0, 0, 1, 0, 0, 0, 0⟩

/-- The measurement produced by `Parse(3, "m")`. -/
def mMeter3 : measure := ⟨Q.ofInt 3, "m", ⟨uLen, [], 0⟩⟩

/-- The measurement produced by `Parse(2, "g")`. -/
def mGram2 : measure := ⟨Q.ofInt 2, "g", ⟨uMass, [], 0⟩⟩

/-- The measurement produced by `Parse(0, "g")`. -/
def mGram0 : measure := ⟨Q.zero, "g", ⟨uMass, [], 0⟩⟩

/-! Section: Helper lemmas -/

theorem wrap8_eq_self {x : Int} (h1 : -128 ≤ x) (h2 : x ≤ 127) : wrap8 x = x := by
  unfold wrap8; omega

theorem Q.norm_num_eq_zero (n : Int) (d : Nat) : (Q.norm n d).num = 0 ↔ n = 0 := by
  unfold Q.norm
  by_cases hg : n.gcd d = 0
  · have hn : n = 0 := (Int.gcd_eq_zero_iff.mp hg).1
    rw [if_pos hg]
    simp [hn]
  · simp only [hg, if_false]
    constructor
    · intro h0
      have hdvd : (↑(n.gcd ↑d) : Int) ∣ n := Int.gcd_dvd_left
      have hc := Int.ediv_mul_cancel hdvd
      rw [h0] at hc
      simpa using hc.symm
    · intro h0; simp [h0]

theorem Q.mul_pow10_isZero (v : Q) (e : Int) :
    (v.mul (pow10 e)).isZero = v.isZero := by
  have hnum : (pow10 e).num ≠ 0 := by
    unfold pow10
    by_cases he : 0 ≤ e
    · simp only [he, if_true]
      exact pow_ne_zero _ (by norm_num)
    · simp [he]
  have h1 : ((v.mul (pow10 e)).num = 0) ↔ (v.num = 0) := by
    unfold Q.mul
    rw [Q.norm_num_eq_zero]
    constructor
    · intro h; rcases mul_eq_zero.mp h with h | h
      · exact h
      · exact absurd h hnum
    · intro h; rw [h, zero_mul]
  rw [Bool.eq_iff_iff]
  simpa [Q.isZero] using h1

theorem newLoop_internal (ms : List measure) :
    ∀ (u : pUnit) (v : Q),
      newLoop u v (ms.map .internal) =
        .ok (ms.foldl (fun a m => a.Multiply m.unit) u, ms.foldl (fun a m => a.mul m.Value) v) := by
  induction ms with
  | nil => intro u v; rfl
  | cons m rest ih =>
    intro u v
    simp only [List.map_cons, newLoop, parse, List.foldl_cons]
    exact ih _ _

theorem Parse_err_shape {q : Q} {s : String} {e : GoErr}
    (h : Parse q s = .err e) : ∃ p i, e = .parseFailed p i := by
  unfold Parse at h
  split at h
  · cases h
  · split at h
    · rename_i p e0 heq
      injection h with he
      exact ⟨p, e0, he.symm⟩
    · split at h
      · injection h with he
        exact ⟨_, _, he.symm⟩
      · cases h


/-! Section: The claims -/

/-- C1: the claim states that a successful `New(targetUnitText, m0, ...)`
returns the product of the input quantities times
`10^(accumulated.scale - target.scale)`, the literal target unit text, and
the TARGET's parsed unit (scale included).  The quantity and unit-text parts
hold, but the returned measurement stores the ACCUMULATED parsed unit, whose
scale differs from the target's: `New("mm", Parse(3, "m"))` returns
quantity 3000 and text `"mm"` but a parsed unit with scale 0, while parsing
`"mm"` yields scale -3.  Feeding the result back into `New("m", ...)`
consequently yields 3000 m instead of 3 m. -/
theorem C1_new_keeps_accumulated_unit :
    Parse (Q.ofInt 3) "m" = .ok mMeter3 ∧
    New "mm" (.internal mMeter3) [] = (⟨Q.ofInt 3000, "mm", ⟨uLen, [], 0⟩⟩, none) ∧
    Parse Q.zero "mm" = .ok ⟨Q.zero, "mm", ⟨uLen, [], -3⟩⟩ ∧
    (⟨uLen, [], 0⟩ : pUnit) ≠ ⟨uLen, [], -3⟩ ∧
    New "m" (.internal ⟨Q.ofInt 3000, "mm", ⟨uLen, [], 0⟩⟩) [] =
      (⟨Q.ofInt 3000, "m", ⟨uLen, [], 0⟩⟩, none) := by
  decide

/-- C2: the claim states `Parse(v, "")` succeeds with quantity `v` and unit
text `""`.  The empty-string branch of `Parse` returns
`&measure{unit: theZero}` without storing the quantity argument, so
`Parse(5, "")` yields quantity 0, not 5. -/
theorem C2_parse_empty_drops_quantity :
    Parse (Q.ofInt 5) "" = .ok ⟨Q.zero, "", theZero⟩ ∧ Q.ofInt 5 ≠ Q.zero := by
  decide

/-- C3 counterexample: the claim states that `New` does NOT fail with
underflow when the accumulated product is already zero (for example a first
measurement with quantity 0).  The code checks only `value == 0.0` after
rescaling, so `New("g", Parse(0, "g"))` fails with underflow even though the
pre-scale product was zero. -/
theorem C3_counterexample :
    Parse Q.zero "g" = .ok mGram0 ∧
    New "g" (.internal mGram0) [] = (zeroValue, some .underflow) := by
  decide

/-- C4 counterexample: the claim states no operation mutates a returned
Measurement; but `Reciprocal` on the internal measurement produced by
`Parse(2, "g")` rewrites that very object (its quantity becomes 1/2, its
unit text `"(g)^-1"`, its parsed unit the reciprocal), so the argument's
final state differs from its initial state. -/
theorem C4_counterexample :
    Parse (Q.ofInt 2) "g" = .ok mGram2 ∧
    (Reciprocal (.internal mGram2)).2 ≠ .internal mGram2 := by
  decide

/-- C4 (amended): `New` only reads its arguments (its embedding is a pure
function of their fields), and `Reciprocal` leaves an external argument and
a zero-quantity internal argument unchanged; but `Reciprocal` on an internal
measurement with nonzero quantity updates the caller's object in place to
the returned reciprocal measurement. -/
theorem C4_reciprocal_mutates_internal :
    ∀ (m : measure) (q : Q) (u : String),
      (Reciprocal (.internal m)).2 =
        (if m.Value.isZero then .internal m
         else .internal (Reciprocal (.internal m)).1.1) ∧
      (Reciprocal (.external q u)).2 = .external q u := by
  intro m q u
  constructor
  · by_cases h : m.Value.isZero = true <;>
      simp [Reciprocal, parse, h]
  · unfold Reciprocal parse
    cases hp : Parse q u with
    | err e => simp [hp]
    | ok m1 =>
      by_cases h : m1.Value.isZero = true <;> simp [hp, h]

/-- C5: for a (library-produced, internal) measurement `m`, `Reciprocal(m)`
fails with divide-by-zero exactly when `m`'s quantity is zero; otherwise it
succeeds with quantity `1/value`, parsed unit with negated dimension-vector
product and negated scale, and the unit text wrapped as `(original)^-1`
unless the original text was empty, in which case it stays empty. -/
theorem C5_reciprocal_spec :
    ∀ m : measure,
      (Reciprocal (.internal m)).1 =
        if m.Value.isZero then (zeroValue, some .divideByZero)
        else (⟨Q.div Q.one m.Value,
               if m.Unit.length ≠ 0 then "(" ++ m.Unit ++ ")^-1" else m.Unit,
               ⟨pNeg m.unit.product, [], -m.unit.Scale⟩⟩, none) := by
  intro m
  by_cases h : m.Value.isZero = true <;>
    simp [Reciprocal, parse, pUnit.Reciprocal, h]

/-- C10: whenever `Reciprocal` or `New` returns a non-nil error, the
measurement returned with it is the dimensionless `zeroValue`
(quantity 0, unit text `""`), never nil, so the accessors are safe on the
error path. -/
theorem C10_errors_return_zero_value :
    ∀ (u : String) (m0 : MInput) (ms : List MInput) (mm : MInput),
      ((New u m0 ms).2 ≠ none → (New u m0 ms).1 = zeroValue) ∧
      ((Reciprocal mm).1.2 ≠ none → (Reciprocal mm).1.1 = zeroValue) ∧
      zeroValue.Value = Q.zero ∧ zeroValue.Unit = "" := by
  intro u m0 ms mm
  refine ⟨?_, ?_, rfl, rfl⟩
  · unfold New
    split
    · intro _; rfl
    · split
      · intro _; rfl
      · split
        · intro _; rfl
        · split
          · intro _; rfl
          · split
            · intro _; rfl
            · split
              · intro _; rfl
              · intro hc; exact absurd rfl hc
  · unfold Reciprocal
    split
    · intro _; rfl
    · split
      · intro _; rfl
      · intro hc; exact absurd rfl hc

/-- C10 witness: a wrong-dimension `New` call and a divide-by-zero
`Reciprocal` call both return `zeroValue`. -/
theorem C10_errors_return_zero_value_witness :
    (New "s" (.internal mGram2) []).1 = zeroValue ∧
    (Reciprocal (.internal mGram0)).1.1 = zeroValue :=
  ⟨(C10_errors_return_zero_value "s" (.internal mGram2) [] (.internal mGram0)).1
    (by decide),
   (C10_errors_return_zero_value "s" (.internal mGram2) [] (.internal mGram0)).2.1
    (by decide)⟩

/-- C3 (amended): `New` reports an underflow error if and only if the
numeric product after multiplying by `10^(accumulated.scale - target.scale)`
is exactly zero — equivalently, in exact arithmetic, if and only if the
target parses, the dimension check passes, and the accumulated product of
the input quantities is zero.  In particular, a zero accumulated product
(for example a first measurement with quantity 0) DOES fail with
underflow. -/
theorem C3_underflow_iff :
    ∀ (t : String) (m0 : measure) (ms : List measure),
      (New t (.internal m0) (ms.map .internal)).2 = some .underflow ↔
        ∃ tm, Parse Q.zero t = .ok tm ∧
          tm.unit.product = (accUnit m0 ms).product ∧
          (accValue m0 ms).isZero = true := by
  intro t m0 ms
  unfold New accUnit accValue
  simp only [parse, newLoop_internal]
  cases hp : Parse Q.zero t with
  | err e =>
    simp only [hp]
    constructor
    · intro h
      obtain ⟨p, i, rfl⟩ := Parse_err_shape hp
      simp at h
    · rintro ⟨tm, htm, -, -⟩
      cases htm
  | ok target =>
    simp only [hp]
    by_cases hdim :
        target.unit.product ≠ (ms.foldl (fun u m => u.Multiply m.unit) m0.unit).product
    · simp only [if_pos hdim]
      constructor
      · intro h; simp at h
      · rintro ⟨tm, htm, hd, -⟩
        injection htm with htm'
        subst htm'
        exact absurd hd hdim
    · simp only [if_neg hdim]
      by_cases hz :
          ((ms.foldl (fun v m2 => v.mul m2.Value) m0.Value).mul
            (pow10 ((ms.foldl (fun u m => u.Multiply m.unit) m0.unit).Scale -
              target.unit.Scale))).isZero = true
      · simp only [if_pos hz]
        constructor
        · intro _
          refine ⟨target, rfl, not_not.mp hdim, ?_⟩
          rw [Q.mul_pow10_isZero] at hz
          exact hz
        · intro _; trivial
      · simp only [if_neg hz, Q.isInf, Bool.false_eq_true, if_false]
        constructor
        · intro h; simp at h
        · rintro ⟨tm, htm, -, hzv⟩
          injection htm with htm'
          subst htm'
          rw [Q.mul_pow10_isZero] at hz
          rw [hzv] at hz
          exact absurd rfl hz

/-- C3 witness: instantiating the amended equivalence at
`New("g", Parse(0, "g"))`: the underflow error occurs and the right-hand
side holds with the target measurement of `"g"`. -/
theorem C3_underflow_iff_witness :
    (New "g" (.internal mGram0) []).2 = some .underflow :=
  (C3_underflow_iff "g" mGram0 []).mpr
    ⟨⟨Q.zero, "g", ⟨uMass, [], 0⟩⟩, by decide, by decide, by decide⟩

/-- C8: on parsed units, `Multiply(a, b)` yields the componentwise sum of
the two products as its dimension vector (exactly, whenever that sum fits in
`int8`), scale `a.Scale + b.Scale`, and an empty dimensionless-factor list;
`Reciprocal(a)` yields the negated product and negated scale; and
`Exp(a, e)` yields the `e`-fold product and scale `e * a.Scale`. -/
theorem C8_algebra :
    ∀ (a b : pUnit) (e : Int),
      (inRange8 (pointAddZ a.product b.product) →
        a.Multiply b = ⟨pointAddZ a.product b.product, [], a.Scale + b.Scale⟩) ∧
      (inRange8 (pointNegZ a.product) →
        a.Reciprocal = ⟨pointNegZ a.product, [], -a.Scale⟩) ∧
      (inRange8 (pointSMulZ e a.product) →
        a.Exp e = ⟨pointSMulZ e a.product, [], e * a.Scale⟩) := by
  intro a b e
  refine ⟨fun hr => ?_, fun hr => ?_, fun hr => ?_⟩
  · unfold inRange8 at hr
    simp only [pointAddZ] at hr
    simp only [pUnit.Multiply, pAdd, pointAddZ, pUnit.mk.injEq, uPoint.mk.injEq]
    refine ⟨?_, trivial, trivial⟩
    unfold wrap8
    omega
  · unfold inRange8 at hr
    simp only [pointNegZ] at hr
    simp only [pUnit.Reciprocal, pNeg, pointNegZ, pUnit.mk.injEq, uPoint.mk.injEq]
    refine ⟨?_, trivial, trivial⟩
    unfold wrap8
    omega
  · unfold inRange8 at hr
    simp only [pointSMulZ] at hr
    simp only [pUnit.Exp, pSMul, pointSMulZ, pUnit.mk.injEq, uPoint.mk.injEq]
    refine ⟨?_, trivial, trivial⟩
    unfold wrap8
    obtain ⟨h1, h2, h3, h4, h5, h6, h7, h8⟩ := hr
    omega

/-- C8 witness: the algebra identities instantiated on the table units of
the newton (scale 3) and the hertz, with exponent 2. -/
theorem C8_algebra_witness :
    pUnit.Multiply ⟨⟨0, 0, 1, 1, 0, -2, 0, 0⟩, [], 3⟩ ⟨⟨0, 0, 0, 0, 0, -1, 0, 0⟩, [], 0⟩ =
      ⟨pointAddZ (pUnit.product ⟨⟨0, 0, 1, 1, 0, -2, 0, 0⟩, [], 3⟩)
         (pUnit.product ⟨⟨0, 0, 0, 0, 0, -1, 0, 0⟩, [], 0⟩), [], 3 + 0⟩ ∧
    pUnit.Reciprocal ⟨⟨0, 0, 1, 1, 0, -2, 0, 0⟩, [], 3⟩ =
      ⟨pointNegZ (pUnit.product ⟨⟨0, 0, 1, 1, 0, -2, 0, 0⟩, [], 3⟩), [], -3⟩ ∧
    pUnit.Exp ⟨⟨0, 0, 1, 1, 0, -2, 0, 0⟩, [], 3⟩ 2 =
      ⟨pointSMulZ 2 (pUnit.product ⟨⟨0, 0, 1, 1, 0, -2, 0, 0⟩, [], 3⟩), [], 2 * 3⟩ := by
  have h := C8_algebra ⟨⟨0, 0, 1, 1, 0, -2, 0, 0⟩, [], 3⟩ ⟨⟨0, 0, 0, 0, 0, -1, 0, 0⟩, [], 0⟩ 2
  exact ⟨h.1 (by decide), h.2.1 (by decide), h.2.2 (by decide)⟩

/-- A linear scan by `find?` over a table in which no earlier key is a
proper prefix of a later key returns, for any input that some key matches,
a matching key of maximal length. -/
theorem find_longest_in_table {α : Type} (key : α → String) :
    ∀ (l : List α) (s : List Char),
      List.Pairwise (fun a b =>
        (key a).toList.isPrefixOf (key b).toList = true → key a = key b) l →
      ∀ x ∈ l, (key x).toList.isPrefixOf s = true →
      ∃ r, l.find? (fun e => (key e).toList.isPrefixOf s) = some r ∧
        (key r).toList.isPrefixOf s = true ∧
        (key x).toList.length ≤ (key r).toList.length := by
  intro l
  induction l with
  | nil => intro s _ x hx; cases hx
  | cons hd tl ih =>
    intro s hpw x hx hpre
    have hpw' := List.pairwise_cons.mp hpw
    by_cases hh : (key hd).toList.isPrefixOf s = true
    · refine ⟨hd, ?_, hh, ?_⟩
      · have hh' := hh
        simp only [String.toList] at hh'
        simp [List.find?, hh']
      · rcases List.mem_cons.mp hx with rfl | hxt
        · exact Nat.le_refl _
        · have h1 := List.isPrefixOf_iff_prefix.mp hh
          have h2 := List.isPrefixOf_iff_prefix.mp hpre
          rcases List.prefix_or_prefix_of_prefix h1 h2 with hp1 | hp2
          · have heq := hpw'.1 x hxt (List.isPrefixOf_iff_prefix.mpr hp1)
            exact Nat.le_of_eq (by rw [heq])
          · exact hp2.length_le
    · rcases List.mem_cons.mp hx with rfl | hxt
      · exact absurd hpre hh
      · obtain ⟨r, hr, hrp, hrl⟩ := ih s hpw'.2 x hxt hpre
        refine ⟨r, ?_, hrp, hrl⟩
        have hh' : (key hd).data.isPrefixOf s = false := by
          simp only [String.toList] at hh
          exact Bool.not_eq_true _ |>.mp hh
        simp only [String.toList] at hr
        simp [List.find?, hh']
        exact hr

/-- In the sorted prefix table, an earlier key is never a proper prefix of a
later key (longer keys sort first). -/
theorem scalesKeysPairwise :
    List.Pairwise (fun a b : keyedScale =>
      a.Key.toList.isPrefixOf b.Key.toList = true → a.Key = b.Key) defaultScales := by
  decide

/-- In the sorted symbol table, an earlier key is never a proper prefix of a
later key (longer keys sort first). -/
theorem unitsKeysPairwise :
    List.Pairwise (fun a b : keyedUnit =>
      a.Key.toList.isPrefixOf b.Key.toList = true → a.Key = b.Key) defaultUnits := by
  decide

/-- Every prefix-table key is nonempty. -/
theorem scalesKeysNonempty : ∀ ks ∈ defaultScales, ks.Key.toList ≠ [] := by decide

/-- Every symbol-table key is nonempty. -/
theorem unitsKeysNonempty : ∀ ku ∈ defaultUnits, ku.Key.toList ≠ [] := by decide

/-- C7: both tables are sorted by `longLess` (strictly descending byte
length, ties broken by ascending byte-lexicographic order), and the linear
prefix scans of `parsePrefix` and `parseSymbol` therefore implement
longest-match-first: whenever a table key is a prefix of the remaining
input, the lookup succeeds and the matched key (measured by the number of
runes consumed) is at least as long as any such key. -/
theorem C7_longest_match_first :
    List.Pairwise (fun a b : keyedScale => longLess a.Key b.Key = true) defaultScales ∧
    List.Pairwise (fun a b : keyedUnit => longLess a.Key b.Key = true) defaultUnits ∧
    (∀ (d : List Char) (p : Nat) (ks : keyedScale), ks ∈ defaultScales →
      ks.Key.toList.isPrefixOf (d.drop p) = true →
      ∃ sc q, parsePre d p = (sc, q, none) ∧ ks.Key.toList.length ≤ q - p) ∧
    (∀ (d : List Char) (p : Nat) (ku : keyedUnit), ku ∈ defaultUnits →
      ku.Key.toList.isPrefixOf (d.drop p) = true →
      ∃ u q, parseSym d p = .ok u q ∧ ku.Key.toList.length ≤ q - p) := by
  refine ⟨by decide, by decide, ?_, ?_⟩
  · intro d p ks hks hpre
    have hkeyne := scalesKeysNonempty ks hks
    have hlt : p < d.length := by
      by_contra hge
      push_neg at hge
      rw [List.drop_eq_nil_of_le hge] at hpre
      exact hkeyne (List.prefix_nil.mp (List.isPrefixOf_iff_prefix.mp hpre))
    obtain ⟨r, hr, hrp, hrl⟩ :=
      find_longest_in_table (fun ks : keyedScale => ks.Key) defaultScales (d.drop p)
        scalesKeysPairwise ks hks hpre
    refine ⟨r.Scale, p + r.Key.toList.length, ?_, by omega⟩
    unfold parsePre
    rw [if_neg (by omega), hr]
  · intro d p ku hku hpre
    have hkeyne := unitsKeysNonempty ku hku
    have hlt : p < d.length := by
      by_contra hge
      push_neg at hge
      rw [List.drop_eq_nil_of_le hge] at hpre
      exact hkeyne (List.prefix_nil.mp (List.isPrefixOf_iff_prefix.mp hpre))
    obtain ⟨r, hr, hrp, hrl⟩ :=
      find_longest_in_table (fun ku : keyedUnit => ku.Key) defaultUnits (d.drop p)
        unitsKeysPairwise ku hku hpre
    refine ⟨r.Unit, p + r.Key.toList.length, ?_, by omega⟩
    unfold parseSym
    rw [if_neg (by omega), hr]

/-- C7 witness: in `"dag"` both the 1-byte prefix key `"d"` and the 2-byte
prefix key `"da"` match, and the scan consumes at least the length of `"d"`
(it in fact matches `"da"`); in `"mol"` both symbol keys `"m"` and `"mol"`
match and at least one rune is consumed (in fact all three). -/
theorem C7_longest_match_first_witness :
    (∃ sc q, parsePre "dag".toList 0 = (sc, q, none) ∧ "d".toList.length ≤ q - 0) ∧
    (∃ u q, parseSym "mol".toList 0 = .ok u q ∧ "m".toList.length ≤ q - 0) :=
  ⟨C7_longest_match_first.2.2.1 "dag".toList 0 ⟨"d", -1⟩ (by decide) (by decide),
   C7_longest_match_first.2.2.2 "mol".toList 0
     ⟨"m", ⟨⟨0, 0, 1, 0, 0, 0, 0, 0⟩, [], 0⟩⟩ (by decide) (by decide)⟩

/-- The helper `parseRune` fails, keeping the position, whenever the expected rune is
not at the position. -/
theorem parseRune_neq {d : List Char} {pos : Nat} {r : Char}
    (h : d.get? pos ≠ some r) :
    parseRune d pos r = (pos, some (.runeNotFound r)) := by
  unfold parseRune
  cases hg : d.get? pos with
  | none => rfl
  | some c =>
    have hne : ¬(c = r) := fun he => h (by rw [hg, he])
    simp [hne]

/-- The helper `parseRune` consumes exactly the expected rune when present. -/
theorem parseRune_eq {d : List Char} {pos : Nat} {r : Char}
    (h : d.get? pos = some r) :
    parseRune d pos r = (pos + 1, none) := by
  unfold parseRune
  rw [h]
  simp

/-- One level of `parseUnit` on a bare term with no exponent and no
following combinator: the term's unit and end position are returned. -/
theorem parseUnit_term_final (fuel : Nat) (d : List Char) (pos : Nat)
    (ua : pUnit) (la : Nat)
    (hscan : scanToNonSpace d pos false = (pos, false))
    (hparen : d.get? pos ≠ some '(')
    (hterm : parseTerm d pos = .ok ua la)
    (hscan2 : scanToNonSpace d la false = (la, false))
    (hcaret : d.get? la ≠ some '^')
    (hslash : d.get? la ≠ some '/')
    (hdot : d.get? la ≠ some '·') :
    parseUnit (fuel + 1) d pos = .ok ua la := by
  have hexp : parseExponent d la = (1, la, some (.runeNotFound '^')) := by
    unfold parseExponent
    rw [parseRune_neq hcaret]
  simp only [parseUnit, hscan, parseRune_neq hparen, hterm, hscan2, hexp,
    parseRune_neq hslash, parseRune_neq hdot]
  simp

/-- One level of `parseUnit` on a bare term with no exponent followed by
`/`: the result is the term's unit multiplied by the reciprocal of the FULL
recursive parse of everything after the slash. -/
theorem parseUnit_term_slash (fuel : Nat) (d : List Char) (pos : Nat)
    (ua : pUnit) (la : Nat)
    (hscan : scanToNonSpace d pos false = (pos, false))
    (hparen : d.get? pos ≠ some '(')
    (hterm : parseTerm d pos = .ok ua la)
    (hscan2 : scanToNonSpace d la false = (la, false))
    (hslash : d.get? la = some '/') :
    parseUnit (fuel + 1) d pos =
      (match parseUnit fuel d (la + 1) with
       | .ok v p => .ok (ua.Multiply v.Reciprocal) p
       | .err p e => .err p e) := by
  have hcaret : d.get? la ≠ some '^' := by rw [hslash]; simp
  have hexp : parseExponent d la = (1, la, some (.runeNotFound '^')) := by
    unfold parseExponent
    rw [parseRune_neq hcaret]
  simp only [parseUnit, hscan, parseRune_neq hparen, hterm, hscan2, hexp,
    parseRune_eq hslash]

/-- C6: division is right-associative.  For any input laid out as three
terms separated by slashes (`a/b/c`, with no whitespace, parentheses or
exponents around the terms and nothing after the third term), `parseUnit`
returns `Multiply(a, Reciprocal(Multiply(b, Reciprocal(c))))`, i.e. it
parses the expression as `a/(b/c)`: the right operand of the first `/` is
the full recursive parse of `b/c`. -/
theorem C6_division_right_assoc :
    ∀ (n : Nat) (d : List Char) (ua ub uc : pUnit) (la lb lc : Nat),
      scanToNonSpace d 0 false = (0, false) →
      d.get? 0 ≠ some '(' →
      parseTerm d 0 = .ok ua la →
      scanToNonSpace d la false = (la, false) →
      d.get? la = some '/' →
      scanToNonSpace d (la + 1) false = (la + 1, false) →
      d.get? (la + 1) ≠ some '(' →
      parseTerm d (la + 1) = .ok ub lb →
      scanToNonSpace d lb false = (lb, false) →
      d.get? lb = some '/' →
      scanToNonSpace d (lb + 1) false = (lb + 1, false) →
      d.get? (lb + 1) ≠ some '(' →
      parseTerm d (lb + 1) = .ok uc lc →
      scanToNonSpace d lc false = (lc, false) →
      d.get? lc ≠ some '^' →
      d.get? lc ≠ some '/' →
      d.get? lc ≠ some '·' →
      parseUnit (n + 3) d 0 =
        .ok (ua.Multiply ((ub.Multiply uc.Reciprocal).Reciprocal)) lc := by
  intro n d ua ub uc la lb lc h1 h2 h3 h4 h5 h6 h7 h8 h9 h10 h11 h12 h13 h14 h15 h16 h17
  have e3 : parseUnit (n + 1) d (lb + 1) = .ok uc lc :=
    parseUnit_term_final n d (lb + 1) uc lc h11 h12 h13 h14 h15 h16 h17
  have e2 : parseUnit (n + 2) d (la + 1) = .ok (ub.Multiply uc.Reciprocal) lc := by
    rw [parseUnit_term_slash (n + 1) d (la + 1) ub lb h6 h7 h8 h9 h10, e3]
  rw [parseUnit_term_slash (n + 2) d 0 ua la h1 h2 h3 h4 h5, e2]

/-- C6 witness: `"m/s/g"` parses as `m/(s/g)` — the meter term multiplied
by the reciprocal of the parse of `s/g`. -/
theorem C6_division_right_assoc_witness :
    parseUnit 3 "m/s/g".toList 0 =
      .ok ((⟨uLen, [], 0⟩ : pUnit).Multiply
        (((⟨⟨0, 0, 0, 0, 0, 1, 0, 0⟩, [], 0⟩ : pUnit).Multiply
          (⟨uMass, [], 0⟩ : pUnit).Reciprocal).Reciprocal)) 5 :=
  C6_division_right_assoc 0 "m/s/g".toList
    ⟨uLen, [], 0⟩ ⟨⟨0, 0, 0, 0, 0, 1, 0, 0⟩, [], 0⟩ ⟨uMass, [], 0⟩ 1 3 5
    (by decide) (by decide) (by decide) (by decide) (by decide) (by decide)
    (by decide) (by decide) (by decide) (by decide) (by decide) (by decide)
    (by decide) (by decide) (by decide) (by decide) (by decide)

/-- Cross-validation of the embedding against the Go test suite: the
`TestNew` and `TestDimensionLess` cases produce the expected quantities,
unit texts and errors in the model. -/
theorem go_test_suite_parity :
    (New "mm" (.internal mMeter3) []).1.Value = Q.ofInt 3000 ∧
    (New "mm" (.internal mMeter3) []).1.Unit = "mm" ∧
    (New "mg/L" (.external (Q.ofInt 3) "g")
      [.internal (Reciprocal (.external (Q.ofInt 3) "ml")).1.1]).1.Value =
      Q.ofInt 1000000 ∧
    (New "g" (.external (Q.ofInt 1) "g")
      [.internal (Reciprocal (.external (Q.ofInt 1) "l")).1.1]).2 =
      some .wrongDimension ∧
    (New "g / g" (.external (Q.ofInt 1) "g")
      [.internal (Reciprocal (.external (Q.ofInt 2) "g")).1.1]).1.Value = ⟨1, 2⟩ ∧
    (New "" (.external (Q.ofInt 1) "g")
      [.internal (Reciprocal (.external (Q.ofInt 2) "g")).1.1]).1.Value = ⟨1, 2⟩ := by
  refine ⟨by decide, by decide, by decide, by decide, by decide, by decide⟩

end Units
